import Mathlib

/-!
Verification of the newsroom audio pipeline (`newsroom/audio.py` and
`newsroom/config.py`).

Python strings are modelled as lists of characters (`Text`); slicing,
`strip`, concatenation and character iteration translate to list
operations.  Each definition below embeds one Python function, keeping
its name and control flow; theorems then settle the specified
properties.
-/

namespace Newsroom

/-- Python `str` modelled as a list of characters. -/
abbrev Text := List Char

/-- Whitespace test backing Python `str.strip()`. -/
def isWS (c : Char) : Bool := c.isWhitespace

/-- Python `s.strip()`: remove leading and trailing whitespace. -/
def strip (s : Text) : Text :=
  ((s.dropWhile isWS).reverse.dropWhile isWS).reverse

/-- The characters tested by `char in ".!?"` in `_split_sentences`. -/
def isTerminator (c : Char) : Bool := c = '.' || c = '!' || c = '?'

/-- Loop of `_split_sentences`: append each character to `current` and
close a unit when the character is a terminator and the accumulated unit
is longer than one character; a non-empty remainder is a final unit. -/
def splitSentencesAux : Text → Text → List Text
  | [], current => if current = [] then [] else [current]
  | c :: rest, current =>
    if isTerminator c ∧ (current ++ [c]).length > 1 then
      (current ++ [c]) :: splitSentencesAux rest []
    else
      splitSentencesAux rest (current ++ [c])

/-- `_split_sentences(text)` from `newsroom/audio.py`. -/
def split_sentences (t : Text) : List Text := splitSentencesAux t []

/-- Loop of `split_into_chunks` over sentence units, with accumulator
`current`: flush the stripped accumulator when it is non-empty and
adding the next unit would exceed the limit; flush a final remainder
only when it strips to something non-empty. -/
def chunkAccum (limit : Nat) : List Text → Text → List Text
  | [], current => if strip current = [] then [] else [strip current]
  | s :: rest, current =>
    if current ≠ [] ∧ current.length + s.length > limit then
      strip current :: chunkAccum limit rest s
    else
      chunkAccum limit rest (current ++ s)

/-- `split_into_chunks(text, limit)` from `newsroom/audio.py`: short text
is returned as a single chunk unchanged; otherwise the sentence units are
greedily grouped, and an empty chunk list falls back to the hard-truncated
first `limit` characters (Python `chunks or [text[:limit]]`). -/
def split_into_chunks (t : Text) (limit : Nat) : List Text :=
  if t.length ≤ limit then [t]
  else
    let cs := chunkAccum limit (split_sentences t) []
    if cs = [] then [t.take limit] else cs

/-- `CHUNK_LIMIT` from `newsroom/audio.py`. -/
def CHUNK_LIMIT : Nat := 4000

/-- Python `s[-n:]`: the last at most `n` elements. -/
def lastN (n : Nat) (l : List α) : List α := l.drop (l.length - n)

/-- The length of the longest sentence-like unit of a text. -/
def maxUnitLen (t : Text) : Nat :=
  (split_sentences t).foldr (fun s m => max s.length m) 0

/-- The chunk loop of `split_into_chunks`, recast to collect the groups
of consecutive sentence units that each flush covers (same guard, same
recursion; `current` corresponds to the flattened group). -/
def chunkGroups (limit : Nat) : List Text → List Text → List (List Text)
  | [], cg => if cg = [] then [] else [cg]
  | s :: rest, cg =>
    if cg.flatten ≠ [] ∧ cg.flatten.length + s.length > limit then
      cg :: chunkGroups limit rest [s]
    else
      chunkGroups limit rest (cg ++ [s])

/-- Chunks emitted for a group list: each group contributes its flattened
content stripped; the final group is dropped when it strips to empty
(the guard on the last `chunks.append`). -/
def emitChunks : List (List Text) → List Text
  | [] => []
  | g :: rest =>
    if rest = [] then (if strip g.flatten = [] then [] else [strip g.flatten])
    else strip g.flatten :: emitChunks rest

/-- `VoiceConfig` from `newsroom/config.py`: voice id per speaker role. -/
structure VoiceConfig where
  anchor : String := "cjVigY5qzO86Huf0OWal"
  host : String := "cjVigY5qzO86Huf0OWal"
  cohost : String := "TX3LPaxmHKxFdv7VOQHJ"
  moderator : String := "cjVigY5qzO86Huf0OWal"
  sidea : String := "TX3LPaxmHKxFdv7VOQHJ"
  sideb : String := "EXAVITQu4vr4xnSAxGW1"
  narrator : String := "nPczCjz82KWdKScP46A1"

/-- `NewsroomConfig` from `newsroom/config.py` (the `data_dir` path field
plays no part in the verified behavior). -/
structure NewsroomConfig where
  voices : VoiceConfig := {}
  model : String := "eleven_v3"
  output_format : String := "mp3_44100_128"
  openai_model : String := "gpt-5-mini"

/-- `SPEAKER_ALIASES` from `newsroom/config.py`. -/
def SPEAKER_ALIASES : List (String × String) :=
  [("anchor", "anchor"), ("host", "host"), ("co-host", "cohost"),
    ("cohost", "cohost"), ("moderator", "moderator"), ("side-a", "sidea"),
    ("sidea", "sidea"), ("side-b", "sideb"), ("sideb", "sideb"),
    ("narrator", "narrator")]

/-- `VOICE_MAP` from `newsroom/config.py`: per-format mapping from
normalized role to the voice-config field of the same name. -/
def VOICE_MAP : List (String × List (String × String)) :=
  [("news", [("anchor", "anchor")]),
    ("podcast", [("host", "host"), ("cohost", "cohost")]),
    ("debate", [("moderator", "moderator"), ("sidea", "sidea"),
      ("sideb", "sideb")]),
    ("narrative", [("narrator", "narrator")])]

/-- Python `getattr(config.voices, name, config.voices.anchor)` over the
declared voice fields; any other attribute name falls back to `anchor`
(names resolving to non-field attributes of the runtime object cannot be
produced by `VOICE_MAP`, so they take this same fallback on every path). -/
def getattrVoices (v : VoiceConfig) (name : String) : String :=
  if name = "anchor" then v.anchor
  else if name = "host" then v.host
  else if name = "cohost" then v.cohost
  else if name = "moderator" then v.moderator
  else if name = "sidea" then v.sidea
  else if name = "sideb" then v.sideb
  else if name = "narrator" then v.narrator
  else v.anchor

/-- `resolve_voice_id(role, format_name, config)` from
`newsroom/config.py`; the `some f, f = ""` branch mirrors Python's
truthiness test `if voice_field:`. -/
def resolve_voice_id (role : String) (format_name : String)
    (config : NewsroomConfig) : String :=
  let normalized := (SPEAKER_ALIASES.lookup role.toLower).getD role.toLower
  let voice_field := ((VOICE_MAP.lookup format_name).getD []).lookup normalized
  match voice_field with
  | some f =>
    if f = "" then getattrVoices config.voices normalized
    else getattrVoices config.voices f
  | none => getattrVoices config.voices normalized

/-- `Segment` from `newsroom/models.py`: one speaker turn. -/
structure Segment where
  index : Nat
  speaker : String
  text : Text
  emotion_tag : String := ""

instance : Inhabited Segment := ⟨⟨0, "", [], ""⟩⟩

/-- The descending positions scanned by the backward loop of
`_get_adjacent_text`: Python `range(idx - 1, max(idx - 4, -1), -1)`,
i.e. `idx-1` down to `max(idx-3, 0)`. -/
def backIdxs (idx : Nat) : List Nat :=
  (List.range' (idx - min idx 3) (min idx 3)).reverse

/-- The ascending positions scanned by the forward loop of
`_get_adjacent_text`: Python `range(idx + 1, min(idx + 4, len(segments)))`. -/
def fwdIdxs (idx n : Nat) : List Nat :=
  List.range' (idx + 1) (min 3 (n - (idx + 1)))

/-- Python `segments[i]` for the in-range positions the loops visit
(out-of-range positions, never reached, give a default segment). -/
def segAt (segments : List Segment) (i : Nat) : Segment :=
  segments.getD i default

/-- The `for`-with-`break` search shared by both loops of
`_get_adjacent_text`: first scanned segment whose voice, resolved with an
empty format name, equals `voice_id`. -/
def findSameVoice (segments : List Segment) (voice_id : String)
    (config : NewsroomConfig) : List Nat → Option Segment
  | [] => none
  | i :: rest =>
    let seg := segAt segments i
    if resolve_voice_id seg.speaker "" config = voice_id then some seg
    else findSameVoice segments voice_id config rest

/-- `_get_adjacent_text(segments, idx, voice_id, config)` from
`newsroom/audio.py`: `seg.text[-200:]` of the nearest earlier same-voice
segment and `seg.text[:200]` of the nearest later one, empty when the
bounded scan finds none. -/
def get_adjacent_text (segments : List Segment) (idx : Nat)
    (voice_id : String) (config : NewsroomConfig) : Text × Text :=
  let prev_text : Text :=
    match findSameVoice segments voice_id config (backIdxs idx) with
    | some seg => lastN 200 seg.text
    | none => []
  let next_text : Text :=
    match findSameVoice segments voice_id config
        (fwdIdxs idx segments.length) with
    | some seg => seg.text.take 200
    | none => []
  (prev_text, next_text)

/-- The spec's backward window for turn `k`: turns at distance 1, 2, 3
before `k`, nearest first, clamped at turn 0. -/
def specBackWindow (k : Nat) : List Nat :=
  ((List.range 3).filter (fun d => decide (d + 1 ≤ k))).map
    (fun d => k - (d + 1))

/-- The spec's forward window for turn `k` of `n`: turns at distance
1, 2, 3 after `k`, nearest first, clamped at turn `n - 1`. -/
def specFwdWindow (k n : Nat) : List Nat :=
  ((List.range 3).filter (fun d => decide (k + d + 1 ≤ n - 1))).map
    (fun d => k + d + 1)

/-- Context resolution as the spec words it: scan each side's window
nearest-first, skip other voices, take the last/first at most 200
characters of the first match, and yield the empty string on no match. -/
def specAdjacentText (segments : List Segment) (k : Nat) (v : String)
    (cfg : NewsroomConfig) : Text × Text :=
  let sameV := fun j =>
    resolve_voice_id (segAt segments j).speaker "" cfg == v
  let prev : Text :=
    match (specBackWindow k).find? sameV with
    | some j => lastN 200 (segAt segments j).text
    | none => []
  let next : Text :=
    match (specFwdWindow k segments.length).find? sameV with
    | some j => (segAt segments j).text.take 200
    | none => []
  (prev, next)

/-- `chunk_prev = chunks[ci - 1][-200:] if ci > 0 else prev_text` from
`generate_audio` in `newsroom/audio.py`. -/
def chunk_prev_context (chunks : List Text) (ci : Nat) (prev_text : Text) :
    Text :=
  if ci > 0 then lastN 200 (chunks.getD (ci - 1) []) else prev_text

/-- `chunk_next = chunks[ci + 1][:200] if ci < len(chunks) - 1 else
next_text` from `generate_audio` in `newsroom/audio.py`. -/
def chunk_next_context (chunks : List Text) (ci : Nat) (next_text : Text) :
    Text :=
  if ci < chunks.length - 1 then (chunks.getD (ci + 1) []).take 200
  else next_text

/-- The continuity tracker state: `voice_request_ids`, a
`defaultdict(list)` mapping a voice id to all recorded request ids. -/
def ContinuityState := String → List String

/-- The state at pipeline start: every voice maps to the empty list. -/
def emptyContinuity : ContinuityState := fun _ => []

/-- `if request_id: voice_request_ids[voice_id].append(request_id)` from
`generate_audio`: append a non-empty request id to its voice's list; an
empty id leaves the state unchanged. -/
def recordRequestId (st : ContinuityState) (voice_id request_id : String) :
    ContinuityState :=
  if request_id = "" then st
  else fun w => if w = voice_id then st voice_id ++ [request_id] else st w

/-- `voice_request_ids[voice_id][-3:]` from `generate_audio`: the history
snapshot read for a voice. -/
def historyFor (st : ContinuityState) (voice_id : String) : List String :=
  lastN 3 (st voice_id)

/-- `GeneratedAudio` from `newsroom/models.py`: metadata of one turn's
audio artifact (the file path as an opaque string). -/
structure GeneratedAudio where
  segment_index : Nat
  file_path : String
  request_id : String := ""
  voice_id : String := ""
deriving DecidableEq

/-- The sort key of `sorted(audio_files, key=lambda a: a.segment_index)`. -/
def gaLE (a b : GeneratedAudio) : Prop := a.segment_index ≤ b.segment_index

/-- Strict index order on artifacts. -/
def gaLT (a b : GeneratedAudio) : Prop := a.segment_index < b.segment_index

instance : DecidableRel gaLE := fun a b =>
  inferInstanceAs (Decidable (a.segment_index ≤ b.segment_index))

instance : IsTotal GeneratedAudio gaLE :=
  ⟨fun a b => Nat.le_total a.segment_index b.segment_index⟩

instance : IsTrans GeneratedAudio gaLE :=
  ⟨fun _ _ _ h1 h2 => Nat.le_trans h1 h2⟩

instance : IsAntisymm GeneratedAudio gaLT :=
  ⟨fun _ _ h1 h2 => absurd (Nat.lt_trans h1 h2) (Nat.lt_irrefl _)⟩

/-- `sorted(audio_files, key=lambda a: a.segment_index)` from
`concat_final`; Python's sort is stable, which coincides with any
comparison sort whenever the indices are pairwise distinct, the case the
claims quantify over. -/
def sortedByIndex (audio_files : List GeneratedAudio) : List GeneratedAudio :=
  List.insertionSort gaLE audio_files

/-- `file_paths = [a.file_path for a in sorted_files if
a.file_path.exists()]` from `concat_final`, with the filesystem modelled
by the predicate `fs`. -/
def concatOrder (fs : String → Bool) (audio_files : List GeneratedAudio) :
    List String :=
  ((sortedByIndex audio_files).filter (fun a => fs a.file_path)).map
    (fun a => a.file_path)

/-- The error kinds the pipeline can surface: the `RuntimeError` raised by
`concat_final` on an empty manifest, a non-zero ffmpeg exit
(`CalledProcessError`), and a failed synthesis call. -/
inductive PipelineError where
  | emptyInput
  | concatenationFailure
  | chunkSynthesisFailure
deriving DecidableEq

/-- Result of final assembly together with the merge invocations issued
(the output file is written only by the external merge process). -/
structure ConcatOutcome where
  result : Except PipelineError String
  mergeCalls : List (List String)

/-- `concat_final(audio_files, output)` from `newsroom/audio.py`: sort by
`segment_index`, keep the paths whose file exists, raise the empty-input
error before invoking any merge when none remain, otherwise delegate to
the external concatenation (modelled by `mergeOk`). -/
def concat_final (fs : String → Bool) (mergeOk : List String → Bool)
    (audio_files : List GeneratedAudio) (output : String) : ConcatOutcome :=
  let file_paths := concatOrder fs audio_files
  if file_paths = [] then ⟨Except.error PipelineError.emptyInput, []⟩
  else if mergeOk file_paths then ⟨Except.ok output, [file_paths]⟩
  else ⟨Except.error PipelineError.concatenationFailure, [file_paths]⟩

/-- The request handed to
`client.text_to_speech.with_raw_response.convert(...)`: one field per
keyword argument of the call in `_generate_segment`. -/
structure TTSRequest where
  text : Text
  voice_id : String
  model_id : String
  output_format : String
  previous_text : Option Text
  next_text : Option Text
  previous_request_ids : Option (List String)
deriving DecidableEq

/-- The pure request construction of `_generate_segment` from
`newsroom/audio.py`: under `model_id == "eleven_v3"` the context fields
and the stitching history are nulled before the call is issued. -/
def generate_segment_request (text : Text) (voice_id model_id
    output_format : String) (previous_text next_text : Option Text)
    (previous_request_ids : Option (List String)) : TTSRequest :=
  if model_id = "eleven_v3" then
    ⟨text, voice_id, model_id, output_format, none, none, none⟩
  else
    ⟨text, voice_id, model_id, output_format, previous_text, next_text,
      previous_request_ids⟩

lemma dropWhile_eq_self_of_all_false (l : Text) (p : Char → Bool)
    (h : ∀ c ∈ l, p c = false) : l.dropWhile p = l := by
  cases l with
  | nil => rfl
  | cons a as => simp [List.dropWhile_cons, h a (by simp)]

lemma strip_eq_self_of_no_ws (s : Text) (h : ∀ c ∈ s, isWS c = false) :
    strip s = s := by
  unfold strip
  rw [dropWhile_eq_self_of_all_false s isWS h]
  rw [dropWhile_eq_self_of_all_false s.reverse isWS
    (fun c hc => h c (List.mem_reverse.mp hc))]
  exact List.reverse_reverse s

lemma strip_length_le (s : Text) : (strip s).length ≤ s.length := by
  unfold strip
  calc ((s.dropWhile isWS).reverse.dropWhile isWS).reverse.length
      = ((s.dropWhile isWS).reverse.dropWhile isWS).length := by
        rw [List.length_reverse]
    _ ≤ (s.dropWhile isWS).reverse.length := (List.dropWhile_sublist _).length_le
    _ = (s.dropWhile isWS).length := by rw [List.length_reverse]
    _ ≤ s.length := (List.dropWhile_sublist _).length_le

lemma splitSentencesAux_no_term (t : Text) (cur : Text)
    (h : ∀ c ∈ t, isTerminator c = false) :
    splitSentencesAux t cur = if cur ++ t = [] then [] else [cur ++ t] := by
  induction t generalizing cur with
  | nil => simp [splitSentencesAux]
  | cons c rest ih =>
    have hc : isTerminator c = false := h c (by simp)
    have hr : ∀ x ∈ rest, isTerminator x = false := fun x hx => h x (by simp [hx])
    simp [splitSentencesAux, hc, ih (cur ++ [c]) hr]

lemma split_sentences_no_term (t : Text) (hne : t ≠ [])
    (h : ∀ c ∈ t, isTerminator c = false) : split_sentences t = [t] := by
  unfold split_sentences
  rw [splitSentencesAux_no_term t [] h]
  simp [hne]

lemma chunkAccum_single (limit : Nat) (t : Text) :
    chunkAccum limit [t] [] =
      if strip t = [] then [] else [strip t] := by
  simp [chunkAccum]

/-- A text exceeding the limit whose characters contain no sentence
terminator forms one sentence unit, hence one chunk: the stripped text
when that is non-empty, else the hard-truncation fallback. -/
lemma split_into_chunks_no_term (t : Text) (limit : Nat)
    (hlen : limit < t.length) (h : ∀ c ∈ t, isTerminator c = false) :
    split_into_chunks t limit =
      if strip t = [] then [t.take limit] else [strip t] := by
  have hne : t ≠ [] := by
    intro e
    rw [e] at hlen
    simp at hlen
  unfold split_into_chunks
  rw [if_neg (by omega)]
  rw [split_sentences_no_term t hne h, chunkAccum_single]
  by_cases hs : strip t = []
  · simp [hs]
  · simp [hs]

lemma le_foldr_max_of_mem (l : List Text) (s : Text) (h : s ∈ l) :
    s.length ≤ l.foldr (fun x m => max x.length m) 0 := by
  induction l with
  | nil => simp at h
  | cons a as ih =>
    rcases List.mem_cons.mp h with h1 | h2
    · subst h1
      simp [List.foldr_cons]
    · calc s.length ≤ as.foldr (fun x m => max x.length m) 0 := ih h2
        _ ≤ (a :: as).foldr (fun x m => max x.length m) 0 := by
            simp [List.foldr_cons]

/-- Invariant of the chunk loop: if the limit, the accumulator, and every
remaining unit are bounded by `M`, so is every emitted chunk. -/
lemma chunkAccum_length_le (limit M : Nat) (sl : List Text) (cur : Text)
    (hlim : limit ≤ M) (hcur : cur.length ≤ M)
    (hsl : ∀ s ∈ sl, s.length ≤ M) :
    ∀ c ∈ chunkAccum limit sl cur, c.length ≤ M := by
  induction sl generalizing cur with
  | nil =>
    intro c hc
    simp only [chunkAccum] at hc
    by_cases hs : strip cur = []
    · simp [hs] at hc
    · rw [if_neg hs] at hc
      simp at hc
      subst hc
      exact le_trans (strip_length_le cur) hcur
  | cons s rest ih =>
    intro c hc
    simp only [chunkAccum] at hc
    by_cases hcond : cur ≠ [] ∧ cur.length + s.length > limit
    · rw [if_pos hcond] at hc
      rcases List.mem_cons.mp hc with h1 | h2
      · subst h1
        exact le_trans (strip_length_le cur) hcur
      · exact ih s (hsl s (by simp))
          (fun x hx => hsl x (List.mem_cons_of_mem _ hx)) c h2
    · rw [if_neg hcond] at hc
      push_neg at hcond
      have hlen2 : (cur ++ s).length ≤ M := by
        rw [List.length_append]
        by_cases hcur0 : cur = []
        · subst hcur0
          simpa using hsl s (by simp)
        · have := hcond hcur0
          omega
      exact ih (cur ++ s) hlen2
        (fun x hx => hsl x (List.mem_cons_of_mem _ hx)) c hc

/-- C1 counterexample: 5000 terminator-free characters with limit 4000
yield one chunk equal to the whole text, of length 5000 — not the claimed
single chunk of the first 4000 characters. -/
theorem C1_counterexample_5000_chars :
    split_into_chunks (List.replicate 5000 'a') 4000
        = [List.replicate 5000 'a'] ∧
      (List.replicate 5000 'a').length = 5000 ∧
      ∀ c : Text, split_into_chunks (List.replicate 5000 'a') 4000 = [c] →
        c.length ≠ 4000 := by
  have hterm : ∀ c ∈ List.replicate 5000 'a', isTerminator c = false := by
    intro c hc
    rw [List.eq_of_mem_replicate hc]
    decide
  have hws : ∀ c ∈ List.replicate 5000 'a', isWS c = false := by
    intro c hc
    rw [List.eq_of_mem_replicate hc]
    decide
  have hlen : (List.replicate 5000 'a').length = 5000 := by
    rw [List.length_replicate]
  have hne : List.replicate 5000 'a' ≠ [] := by
    rw [List.length_pos.symm, hlen]
    omega
  have hmain := split_into_chunks_no_term (List.replicate 5000 'a') 4000
    (by omega) hterm
  rw [strip_eq_self_of_no_ws _ hws] at hmain
  rw [if_neg hne] at hmain
  refine ⟨hmain, hlen, ?_⟩
  intro c hc
  rw [hmain] at hc
  simp only [List.cons.injEq, and_true] at hc
  rw [← hc, hlen]
  omega

/-- C1 amended: for text longer than the limit, every chunk has length at
most `max limit (maxUnitLen t)` (not `limit` plus a trimming margin); the
hard-truncation fallback of exactly the first `limit` characters occurs
precisely when the chunk loop emits nothing; and terminator-free
whitespace-free text yields one chunk equal to the whole text. -/
theorem C1_chunk_length_bound_amended (t : Text) (limit : Nat)
    (hlen : limit < t.length) :
    (∀ c ∈ split_into_chunks t limit,
        c.length ≤ max limit (maxUnitLen t)) ∧
      (chunkAccum limit (split_sentences t) [] = [] →
        split_into_chunks t limit = [t.take limit] ∧
          (t.take limit).length = limit) ∧
      ((∀ c ∈ t, isTerminator c = false ∧ isWS c = false) →
        split_into_chunks t limit = [t]) := by
  refine ⟨?_, ?_, ?_⟩
  · intro c hc
    unfold split_into_chunks at hc
    rw [if_neg (by omega)] at hc
    by_cases hcs : chunkAccum limit (split_sentences t) [] = []
    · simp only [hcs, if_pos] at hc
      simp at hc
      subst hc
      rw [List.length_take]
      omega
    · rw [if_neg hcs] at hc
      exact chunkAccum_length_le limit (max limit (maxUnitLen t))
        (split_sentences t) [] (le_max_left _ _) (by simp)
        (fun s hs => le_trans (le_foldr_max_of_mem _ s hs)
          (le_max_right _ _)) c hc
  · intro hcs
    constructor
    · unfold split_into_chunks
      rw [if_neg (by omega), hcs]
      simp
    · rw [List.length_take]
      omega
  · intro hall
    have hmain := split_into_chunks_no_term t limit hlen
      (fun c hc => (hall c hc).1)
    rw [strip_eq_self_of_no_ws t (fun c hc => (hall c hc).2)] at hmain
    have hne : t ≠ [] := by
      intro e
      rw [e] at hlen
      simp at hlen
    rw [if_neg hne] at hmain
    exact hmain

/-- C1 amended witness at a concrete input exceeding the limit. -/
theorem C1_chunk_length_bound_amended_witness :
    3 < (['a', 'b', '.', 'c'] : Text).length ∧
      (∀ c ∈ split_into_chunks ['a', 'b', '.', 'c'] 3,
        c.length ≤ max 3 (maxUnitLen ['a', 'b', '.', 'c'])) :=
  ⟨by decide, (C1_chunk_length_bound_amended ['a', 'b', '.', 'c'] 3 (by decide)).1⟩

lemma splitSentencesAux_flatten (t : Text) (cur : Text) :
    (splitSentencesAux t cur).flatten = cur ++ t := by
  induction t generalizing cur with
  | nil =>
    by_cases h : cur = []
    · simp [splitSentencesAux, h]
    · simp [splitSentencesAux, h]
  | cons c rest ih =>
    simp only [splitSentencesAux]
    split
    · simp [ih []]
    · simp [ih (cur ++ [c])]

/-- The sentence units flatten back to the original text: no character is
lost or reordered by `_split_sentences`. -/
lemma split_sentences_flatten (t : Text) : (split_sentences t).flatten = t := by
  simpa using splitSentencesAux_flatten t []

lemma chunkGroups_ne_nil (limit : Nat) (sl : List Text) (cg : List Text)
    (h : cg ≠ []) : chunkGroups limit sl cg ≠ [] := by
  induction sl generalizing cg with
  | nil => simp [chunkGroups, h]
  | cons s rest ih =>
    simp only [chunkGroups]
    split
    · simp
    · exact ih (cg ++ [s]) (by simp)

/-- The groups form a partition of the sentence-unit list: flattening
them restores every unit, in order. -/
lemma chunkGroups_flatten (limit : Nat) (sl : List Text) (cg : List Text) :
    (chunkGroups limit sl cg).flatten = cg ++ sl := by
  induction sl generalizing cg with
  | nil =>
    by_cases h : cg = []
    · simp [chunkGroups, h]
    · simp [chunkGroups, h]
  | cons s rest ih =>
    simp only [chunkGroups]
    split
    · simp [ih [s]]
    · simp [ih (cg ++ [s])]

/-- The chunk loop emits exactly the stripped flattened groups. -/
lemma chunkAccum_eq_emitChunks (limit : Nat) (sl : List Text)
    (cg : List Text) :
    chunkAccum limit sl cg.flatten = emitChunks (chunkGroups limit sl cg) := by
  induction sl generalizing cg with
  | nil =>
    by_cases h : cg = []
    · simp [chunkAccum, chunkGroups, emitChunks, h, strip]
    · simp [chunkAccum, chunkGroups, emitChunks, h]
  | cons s rest ih =>
    simp only [chunkAccum, chunkGroups]
    by_cases hcond : cg.flatten ≠ [] ∧ cg.flatten.length + s.length > limit
    · rw [if_pos hcond, if_pos hcond]
      have hne := chunkGroups_ne_nil limit rest [s] (by simp)
      simp only [emitChunks, if_neg hne]
      have := ih [s]
      simp only [List.flatten_cons, List.flatten_nil, List.append_nil] at this
      rw [this]
    · rw [if_neg hcond, if_neg hcond]
      have := ih (cg ++ [s])
      simpa using this

/-- C3: the sentence units flatten back to the text, and the chunk list
is, case by case, the unchanged short text, the stripped flattened groups
of a partition of the unit list (no unit dropped, duplicated or
reordered; whitespace removed only at flush points), or the
hard-truncation fallback when every emitted chunk would strip to empty. -/
theorem C3_chunks_preserve_sentence_units (t : Text) (limit : Nat) :
    (split_sentences t).flatten = t ∧
      ∃ groups : List (List Text),
        groups.flatten = split_sentences t ∧
          ((t.length ≤ limit ∧ split_into_chunks t limit = [t]) ∨
            (split_into_chunks t limit = emitChunks groups ∧
              emitChunks groups ≠ []) ∨
            (emitChunks groups = [] ∧
              split_into_chunks t limit = [t.take limit])) := by
  refine ⟨split_sentences_flatten t,
    chunkGroups limit (split_sentences t) [], by
      simpa using chunkGroups_flatten limit (split_sentences t) [], ?_⟩
  by_cases hl : t.length ≤ limit
  · left
    exact ⟨hl, by simp [split_into_chunks, hl]⟩
  · have key : chunkAccum limit (split_sentences t) [] =
        emitChunks (chunkGroups limit (split_sentences t) []) := by
      simpa using chunkAccum_eq_emitChunks limit (split_sentences t) []
    by_cases hcs : emitChunks (chunkGroups limit (split_sentences t) []) = []
    · right; right
      refine ⟨hcs, ?_⟩
      simp [split_into_chunks, hl, key, hcs]
    · right; left
      refine ⟨?_, hcs⟩
      simp [split_into_chunks, hl, key, hcs]

/-- Every `VOICE_MAP` entry maps a normalized role to the field of the
same name. -/
lemma voiceMap_lookup_eq (fmt n f : String)
    (h : ((VOICE_MAP.lookup fmt).getD []).lookup n = some f) : f = n := by
  simp only [VOICE_MAP, List.lookup] at h
  repeat' split at h
  all_goals try simp only [List.lookup] at h
  all_goals repeat' split at h
  all_goals simp_all

/-- On every format, `resolve_voice_id` reduces to the direct attribute
lookup of the normalized role. -/
lemma resolve_voice_id_eq_getattr (role fmt : String) (cfg : NewsroomConfig) :
    resolve_voice_id role fmt cfg =
      getattrVoices cfg.voices
        ((SPEAKER_ALIASES.lookup role.toLower).getD role.toLower) := by
  unfold resolve_voice_id
  cases hvf : ((VOICE_MAP.lookup fmt).getD []).lookup
      ((SPEAKER_ALIASES.lookup role.toLower).getD role.toLower) with
  | none => simp [hvf]
  | some f =>
    have hf := voiceMap_lookup_eq fmt _ f hvf
    subst hf
    simp [hvf]

/-- C10: `resolve_voice_id` returns the same voice for every format name,
the empty one included, so the context resolver (which resolves adjacent
turns with format `""`) matches voices exactly as the main loop does. -/
theorem C10_resolve_voice_id_format_independent (role fmt₁ fmt₂ : String)
    (cfg : NewsroomConfig) :
    resolve_voice_id role fmt₁ cfg = resolve_voice_id role fmt₂ cfg := by
  rw [resolve_voice_id_eq_getattr, resolve_voice_id_eq_getattr]

lemma backIdxs_eq_specBackWindow (k : Nat) : backIdxs k = specBackWindow k := by
  match k with
  | 0 => rfl
  | 1 => rfl
  | 2 => rfl
  | n + 3 =>
    have h1 : min (n + 3) 3 = 3 := by omega
    have h2 : n + 3 - 3 = n := by omega
    have h3 : (List.range 3).filter (fun d => decide (d + 1 ≤ n + 3)) =
        List.range 3 := by
      apply List.filter_eq_self.mpr
      intro d hd
      simp only [decide_eq_true_eq]
      simp only [List.mem_range] at hd
      omega
    simp only [backIdxs, specBackWindow, h1, h2, h3]
    rfl

lemma fwdIdxs_eq_specFwdWindow (k n : Nat) :
    fwdIdxs k n = specFwdWindow k n := by
  have hcond : (fun d => decide (k + d + 1 ≤ n - 1)) =
      (fun d => decide (d + 1 ≤ n - (k + 1))) := by
    funext d
    exact decide_eq_decide.mpr (by omega)
  unfold fwdIdxs specFwdWindow
  rw [hcond]
  rcases Nat.lt_or_ge (n - (k + 1)) 3 with h | h
  · have h4 : n - (k + 1) = 0 ∨ n - (k + 1) = 1 ∨ n - (k + 1) = 2 := by omega
    rcases h4 with h4 | h4 | h4 <;> rw [h4] <;> rfl
  · have h1 : min 3 (n - (k + 1)) = 3 := by omega
    have h3 : (List.range 3).filter (fun d => decide (d + 1 ≤ n - (k + 1))) =
        List.range 3 := by
      apply List.filter_eq_self.mpr
      intro d hd
      simp only [decide_eq_true_eq]
      simp only [List.mem_range] at hd
      omega
    rw [h1, h3]
    rfl

/-- The loop-with-break equals `find?` over the scanned positions. -/
lemma findSameVoice_eq_find? (segments : List Segment) (v : String)
    (cfg : NewsroomConfig) (idxs : List Nat) :
    findSameVoice segments v cfg idxs =
      (idxs.find? (fun j =>
          resolve_voice_id (segAt segments j).speaker "" cfg == v)).map
        (fun j => segAt segments j) := by
  induction idxs with
  | nil => rfl
  | cons i rest ih =>
    by_cases hm :
        resolve_voice_id (segAt segments i).speaker "" cfg = v
    · have hb : (resolve_voice_id (segAt segments i).speaker "" cfg
          == v) = true := beq_iff_eq.mpr hm
      simp only [findSameVoice, List.find?, hb, if_pos hm, Option.map]
    · have hb : (resolve_voice_id (segAt segments i).speaker "" cfg
          == v) = false := beq_eq_false_iff_ne.mpr hm
      simp only [findSameVoice, List.find?, hb, if_neg hm]
      exact ih

lemma lastN_length_le (n : Nat) (l : List α) : (lastN n l).length ≤ n := by
  simp only [lastN, List.length_drop]
  omega

/-- C4: turn-level context resolution agrees with the spec's description
(nearest same-voice turn in the 3-turn window on each side, last/first at
most 200 characters of its text); a window with no same-voice turn yields
the empty string on that side, and the results never exceed 200
characters. -/
theorem C4_turn_context_resolution (segments : List Segment) (k : Nat)
    (v : String) (cfg : NewsroomConfig) (h : k < segments.length) :
    get_adjacent_text segments k v cfg = specAdjacentText segments k v cfg ∧
      ((∀ j ∈ specBackWindow k,
          resolve_voice_id (segAt segments j).speaker "" cfg ≠ v) →
        (get_adjacent_text segments k v cfg).1 = []) ∧
      ((∀ j ∈ specFwdWindow k segments.length,
          resolve_voice_id (segAt segments j).speaker "" cfg ≠ v) →
        (get_adjacent_text segments k v cfg).2 = []) ∧
      (get_adjacent_text segments k v cfg).1.length ≤ 200 ∧
      (get_adjacent_text segments k v cfg).2.length ≤ 200 := by
  have hmain : get_adjacent_text segments k v cfg =
      specAdjacentText segments k v cfg := by
    unfold get_adjacent_text specAdjacentText
    rw [findSameVoice_eq_find?, findSameVoice_eq_find?,
      backIdxs_eq_specBackWindow, fwdIdxs_eq_specFwdWindow]
    rcases h1 : (specBackWindow k).find? (fun j =>
        resolve_voice_id (segAt segments j).speaker "" cfg == v) with
      _ | j1 <;>
    rcases h2 : (specFwdWindow k segments.length).find? (fun j =>
        resolve_voice_id (segAt segments j).speaker "" cfg == v) with
      _ | j2 <;>
    simp [h1, h2]
  refine ⟨hmain, ?_, ?_, ?_, ?_⟩
  · intro hall
    rw [hmain]
    have hnone : (specBackWindow k).find? (fun j =>
        resolve_voice_id (segAt segments j).speaker "" cfg == v)
          = none := by
      apply List.find?_eq_none.mpr
      intro j hj
      simpa using hall j hj
    simp [specAdjacentText, hnone]
  · intro hall
    rw [hmain]
    have hnone : (specFwdWindow k segments.length).find? (fun j =>
        resolve_voice_id (segAt segments j).speaker "" cfg == v)
          = none := by
      apply List.find?_eq_none.mpr
      intro j hj
      simpa using hall j hj
    simp [specAdjacentText, hnone]
  · unfold get_adjacent_text
    cases findSameVoice segments v cfg (backIdxs k) with
    | none => simp
    | some seg => simpa using lastN_length_le 200 seg.text
  · unfold get_adjacent_text
    cases findSameVoice segments v cfg (fwdIdxs k segments.length) with
    | none => simp
    | some seg =>
      simpa using List.length_take_le 200 seg.text

/-- C4 witness: the spec's example script — turn 2's previous context
comes from same-voice turn 0, not the intervening other-voice turn 1. -/
theorem C4_turn_context_resolution_witness :
    2 < ([⟨0, "host", "Hello there.".toList, ""⟩, ⟨1, "cohost", "Hi!".toList, ""⟩,
        ⟨2, "host", "How are you?".toList, ""⟩] : List Segment).length ∧
      get_adjacent_text
          [⟨0, "host", "Hello there.".toList, ""⟩, ⟨1, "cohost", "Hi!".toList, ""⟩,
            ⟨2, "host", "How are you?".toList, ""⟩]
          2 (NewsroomConfig.mk {} "eleven_v3" "mp3_44100_128"
            "gpt-5-mini").voices.host
          (NewsroomConfig.mk {} "eleven_v3" "mp3_44100_128" "gpt-5-mini") =
        specAdjacentText
          [⟨0, "host", "Hello there.".toList, ""⟩, ⟨1, "cohost", "Hi!".toList, ""⟩,
            ⟨2, "host", "How are you?".toList, ""⟩]
          2 (NewsroomConfig.mk {} "eleven_v3" "mp3_44100_128"
            "gpt-5-mini").voices.host
          (NewsroomConfig.mk {} "eleven_v3" "mp3_44100_128" "gpt-5-mini") :=
  ⟨by decide,
    (C4_turn_context_resolution _ 2 _ _ (by decide)).1⟩

/-- C2: for every text with length at most the limit, `split_into_chunks`
returns exactly the one-element list holding the input unchanged. -/
theorem C2_short_text_single_unchanged_chunk (t : Text) (limit : Nat)
    (h : t.length ≤ limit) : split_into_chunks t limit = [t] := by
  simp [split_into_chunks, h]

/-- C2 witness at a concrete short input. -/
theorem C2_short_text_single_unchanged_chunk_witness :
    ([' ', 'h', 'i', ' '] : Text).length ≤ 4000 ∧
      split_into_chunks [' ', 'h', 'i', ' '] 4000 = [[' ', 'h', 'i', ' ']] :=
  ⟨by decide, C2_short_text_single_unchanged_chunk _ 4000 (by decide)⟩

/-- C5: for a turn split into chunks `c_0 .. c_m`, chunk `i` receives as
previous context the last at most 200 characters of `c_(i-1)` when
`i > 0` and the turn-level previous text otherwise, and as next context
the first at most 200 characters of `c_(i+1)` when `i < m` and the
turn-level next text otherwise. -/
theorem C5_chunk_context_override (chunks : List Text) (m ci : Nat)
    (prev_text next_text : Text) (hm : chunks.length = m + 1) (hci : ci ≤ m) :
    chunk_prev_context chunks ci prev_text =
        (if ci = 0 then prev_text else lastN 200 (chunks.getD (ci - 1) [])) ∧
      chunk_next_context chunks ci next_text =
        (if ci < m then (chunks.getD (ci + 1) []).take 200 else next_text) := by
  constructor
  · unfold chunk_prev_context
    by_cases h0 : ci = 0
    · simp [h0]
    · rw [if_pos (by omega), if_neg h0]
  · unfold chunk_next_context
    rw [hm]
    by_cases hlast : ci < m
    · rw [if_pos (by omega), if_pos hlast]
    · rw [if_neg (by omega), if_neg hlast]

/-- C5 witness: a three-chunk turn, middle chunk. -/
theorem C5_chunk_context_override_witness :
    ([['a'], ['b'], ['c']] : List Text).length = 2 + 1 ∧ 1 ≤ 2 ∧
      (chunk_prev_context [['a'], ['b'], ['c']] 1 ['p'] =
          (if 1 = 0 then ['p']
            else lastN 200 (([['a'], ['b'], ['c']] : List Text).getD 0 [])) ∧
        chunk_next_context [['a'], ['b'], ['c']] 1 ['n'] =
          (if 1 < 2 then (([['a'], ['b'], ['c']] : List Text).getD 2 []).take 200
            else ['n'])) :=
  ⟨by decide, by decide,
    C5_chunk_context_override [['a'], ['b'], ['c']] 2 1 ['p'] ['n']
      (by decide) (by decide)⟩

/-- Replaying a record sequence from any state appends, per voice, the
non-empty ids recorded for that voice in order. -/
lemma continuity_foldl (ops : List (String × String)) (st : ContinuityState)
    (v : String) :
    (ops.foldl (fun s p => recordRequestId s p.1 p.2) st) v =
      st v ++ (ops.filter (fun p => p.1 == v && !(p.2 == ""))).map Prod.snd := by
  induction ops generalizing st with
  | nil => simp
  | cons op rest ih =>
    simp only [List.foldl_cons, List.filter_cons]
    rw [ih]
    by_cases h2 : op.2 = ""
    · simp [recordRequestId, h2]
    · by_cases h1 : op.1 = v
      · subst h1
        have hv : (recordRequestId st op.1 op.2) op.1 = st op.1 ++ [op.2] := by
          simp [recordRequestId, h2]
        simp [hv, h2]
      · have hv : (recordRequestId st op.1 op.2) v = st v := by
          have : ¬ v = op.1 := fun e => h1 e.symm
          simp [recordRequestId, h2, this]
        simp [hv, h1, h2]

/-- C6: after any sequence of record operations from the empty state, the
history read for a voice is the last at most 3 of the non-empty request
ids recorded for that voice, in recording order (a suffix of the
chronological record, hence most-recent-last); it never exceeds 3
entries; a voice with no records reads as empty; and recording an empty
id is a no-op on the whole state. -/
theorem C6_continuity_history_bounded (ops : List (String × String))
    (v : String) :
    historyFor (ops.foldl (fun s p => recordRequestId s p.1 p.2)
        emptyContinuity) v =
        lastN 3 ((ops.filter (fun p => p.1 == v && !(p.2 == ""))).map
          Prod.snd) ∧
      (historyFor (ops.foldl (fun s p => recordRequestId s p.1 p.2)
        emptyContinuity) v).length ≤ 3 ∧
      (∃ pre, pre ++ historyFor (ops.foldl
          (fun s p => recordRequestId s p.1 p.2) emptyContinuity) v =
        ((ops.filter (fun p => p.1 == v && !(p.2 == ""))).map Prod.snd)) ∧
      historyFor emptyContinuity v = [] ∧
      ∀ st voice, recordRequestId st voice "" = st := by
  have hst : (ops.foldl (fun s p => recordRequestId s p.1 p.2)
      emptyContinuity) v =
      (ops.filter (fun p => p.1 == v && !(p.2 == ""))).map Prod.snd := by
    rw [continuity_foldl]
    rfl
  refine ⟨?_, ?_, ?_, rfl, ?_⟩
  · rw [historyFor, hst]
  · rw [historyFor, hst]
    exact lastN_length_le _ _
  · refine ⟨((ops.filter (fun p => p.1 == v && !(p.2 == ""))).map
      Prod.snd).take (((ops.filter (fun p => p.1 == v && !(p.2 == ""))).map
        Prod.snd).length - 3), ?_⟩
    rw [historyFor, hst]
    exact List.take_append_drop _ _
  · intro st voice
    simp [recordRequestId]

lemma pairwise_lt_of_sorted_nodup (l : List GeneratedAudio)
    (hs : List.Sorted gaLE l)
    (hd : (l.map (fun a => a.segment_index)).Nodup) :
    List.Pairwise gaLT l := by
  have hp : List.Pairwise gaLE l := hs
  have hne : List.Pairwise
      (fun a b : GeneratedAudio => a.segment_index ≠ b.segment_index) l :=
    List.pairwise_map.mp hd
  exact (hp.and hne).imp (fun h => Nat.lt_of_le_of_ne h.1 h.2)

lemma sorted_strict_of_nodup (l : List GeneratedAudio)
    (hd : (l.map (fun a => a.segment_index)).Nodup) :
    List.Pairwise gaLT (List.insertionSort gaLE l) := by
  apply pairwise_lt_of_sorted_nodup
  · exact List.sorted_insertionSort gaLE l
  · exact (((List.perm_insertionSort gaLE l).map _).nodup_iff).mpr hd

/-- With pairwise-distinct indices, sorting then filtering is invariant
under permutation of the artifact list. -/
lemma sorted_filter_perm_invariant (fs : String → Bool)
    (l₁ l₂ : List GeneratedAudio) (hp : l₁.Perm l₂)
    (hd : (l₁.map (fun a => a.segment_index)).Nodup) :
    (sortedByIndex l₁).filter (fun a => fs a.file_path) =
      (sortedByIndex l₂).filter (fun a => fs a.file_path) := by
  have hd₂ : (l₂.map (fun a => a.segment_index)).Nodup :=
    ((hp.map _).nodup_iff).mp hd
  apply List.eq_of_perm_of_sorted (r := gaLT)
  · exact (((List.perm_insertionSort gaLE l₁).filter _).trans
      (hp.filter _)).trans
      (((List.perm_insertionSort gaLE l₂).filter _).symm)
  · exact (sorted_strict_of_nodup l₁ hd).filter _
  · exact (sorted_strict_of_nodup l₂ hd₂).filter _

/-- With pairwise-distinct indices, sorting commutes with the existence
filter: the merged artifacts are exactly the existing ones in index
order. -/
lemma sorted_filter_comm (fs : String → Bool) (l : List GeneratedAudio)
    (hd : (l.map (fun a => a.segment_index)).Nodup) :
    (sortedByIndex l).filter (fun a => fs a.file_path) =
      List.insertionSort gaLE (l.filter (fun a => fs a.file_path)) := by
  have hdf : ((l.filter (fun a => fs a.file_path)).map
      (fun a => a.segment_index)).Nodup :=
    hd.sublist ((List.filter_sublist l).map _)
  apply List.eq_of_perm_of_sorted (r := gaLT)
  · exact ((List.perm_insertionSort gaLE l).filter _).trans
      (List.perm_insertionSort gaLE _).symm
  · exact (sorted_strict_of_nodup l hd).filter _
  · exact sorted_strict_of_nodup _ hdf

/-- C7: under pairwise-distinct indices, final assembly's manifest is a
strict function of the artifact set — invariant under permutation of the
input list — and consists of exactly the existing artifacts' paths in
strictly ascending index order. -/
theorem C7_final_assembly_order (fs : String → Bool)
    (l₁ l₂ : List GeneratedAudio) (hp : l₁.Perm l₂)
    (hd : (l₁.map (fun a => a.segment_index)).Nodup) :
    concatOrder fs l₁ = concatOrder fs l₂ ∧
      concatOrder fs l₁ =
        (List.insertionSort gaLE (l₁.filter (fun a => fs a.file_path))).map
          (fun a => a.file_path) ∧
      List.Pairwise gaLT
        ((sortedByIndex l₁).filter (fun a => fs a.file_path)) := by
  refine ⟨?_, ?_, ?_⟩
  · unfold concatOrder
    rw [sorted_filter_perm_invariant fs l₁ l₂ hp hd]
  · unfold concatOrder
    rw [sorted_filter_comm fs l₁ hd]
  · exact (sorted_strict_of_nodup l₁ hd).filter _

/-- C7 witness: the spec's scenarios — artifacts supplied in order
`[2, 0, 1]` with one missing file, compared against the sorted order. -/
theorem C7_final_assembly_order_witness :
    ([⟨2, "a2", "", ""⟩, ⟨0, "a0", "", ""⟩, ⟨1, "a1", "", ""⟩] :
        List GeneratedAudio).Perm
        [⟨0, "a0", "", ""⟩, ⟨1, "a1", "", ""⟩, ⟨2, "a2", "", ""⟩] ∧
      (([⟨2, "a2", "", ""⟩, ⟨0, "a0", "", ""⟩, ⟨1, "a1", "", ""⟩] :
        List GeneratedAudio).map (fun a => a.segment_index)).Nodup ∧
      concatOrder (fun p => !(p == "a1"))
          [⟨2, "a2", "", ""⟩, ⟨0, "a0", "", ""⟩, ⟨1, "a1", "", ""⟩] =
        concatOrder (fun p => !(p == "a1"))
          [⟨0, "a0", "", ""⟩, ⟨1, "a1", "", ""⟩, ⟨2, "a2", "", ""⟩] :=
  ⟨by decide, by decide,
    (C7_final_assembly_order (fun p => !(p == "a1"))
      [⟨2, "a2", "", ""⟩, ⟨0, "a0", "", ""⟩, ⟨1, "a1", "", ""⟩]
      [⟨0, "a0", "", ""⟩, ⟨1, "a1", "", ""⟩, ⟨2, "a2", "", ""⟩]
      (by decide) (by decide)).1⟩

lemma concatOrder_eq_nil_iff (fs : String → Bool)
    (l : List GeneratedAudio) :
    concatOrder fs l = [] ↔ l.filter (fun a => fs a.file_path) = [] := by
  have hperm : List.Perm
      ((sortedByIndex l).filter (fun a => fs a.file_path))
      (l.filter (fun a => fs a.file_path)) :=
    (List.perm_insertionSort gaLE l).filter _
  unfold concatOrder
  rw [List.map_eq_nil_iff]
  constructor
  · intro h
    have := hperm.length_eq
    rw [h] at this
    exact List.eq_nil_of_length_eq_zero this.symm
  · intro h
    have := hperm.length_eq
    rw [h] at this
    exact List.eq_nil_of_length_eq_zero this

/-- C8: final assembly yields the distinct empty-input error exactly when
no artifact's file exists; in that case no merge is invoked (so no output
file is produced); and the empty-input error is distinguishable from both
the merge-process error and the chunk-synthesis error. -/
theorem C8_empty_input_error (fs : String → Bool)
    (mergeOk : List String → Bool) (l : List GeneratedAudio)
    (output : String) :
    ((concat_final fs mergeOk l output).result =
          Except.error PipelineError.emptyInput ↔
        l.filter (fun a => fs a.file_path) = []) ∧
      ((concat_final fs mergeOk l output).result =
          Except.error PipelineError.emptyInput →
        (concat_final fs mergeOk l output).mergeCalls = []) ∧
      PipelineError.emptyInput ≠ PipelineError.concatenationFailure ∧
      PipelineError.emptyInput ≠ PipelineError.chunkSynthesisFailure := by
  by_cases hnil : concatOrder fs l = []
  · have hres : concat_final fs mergeOk l output =
        ⟨Except.error PipelineError.emptyInput, []⟩ := by
      unfold concat_final
      rw [if_pos hnil]
    refine ⟨?_, ?_, by simp, by simp⟩
    · rw [hres]
      simp [(concatOrder_eq_nil_iff fs l).mp hnil]
    · intro _
      rw [hres]
  · have hfil : ¬ l.filter (fun a => fs a.file_path) = [] := by
      intro h
      exact hnil ((concatOrder_eq_nil_iff fs l).mpr h)
    have hres : (concat_final fs mergeOk l output).result ≠
        Except.error PipelineError.emptyInput := by
      unfold concat_final
      rw [if_neg hnil]
      by_cases hok : mergeOk (concatOrder fs l)
      · rw [if_pos hok]
        simp
      · rw [if_neg hok]
        simp
    exact ⟨⟨fun h => absurd h hres, fun h => absurd h hfil⟩,
      fun h => absurd h hres, by simp, by simp⟩

/-- C9: under the `"eleven_v3"` model, the synthesis collaborator receives
`previous_text`, `next_text` and `previous_request_ids` all absent, and
the request is identical for any two computed context/history values. -/
theorem C9_v3_suppresses_context (text : Text)
    (voice_id output_format : String) (p n p₂ n₂ : Option Text)
    (ids ids₂ : Option (List String)) :
    (generate_segment_request text voice_id "eleven_v3" output_format
        p n ids).previous_text = none ∧
      (generate_segment_request text voice_id "eleven_v3" output_format
        p n ids).next_text = none ∧
      (generate_segment_request text voice_id "eleven_v3" output_format
        p n ids).previous_request_ids = none ∧
      generate_segment_request text voice_id "eleven_v3" output_format
          p n ids =
        generate_segment_request text voice_id "eleven_v3" output_format
          p₂ n₂ ids₂ := by
  refine ⟨?_, ?_, ?_, ?_⟩ <;> simp [generate_segment_request]

end Newsroom
